import Mathlib

/-!
Verification of the `root` package (gonum-root): a derivative-free scalar
root finder.  The Go source is shallowly embedded below.

Float64 values are modelled by `GonumRoot.FP`: an exact rational adjoined
with the IEEE special values `+Inf`, `-Inf` and `NaN`.  The arithmetic the
source uses (addition, multiplication, halving, absolute value, `math.Min`,
ordered comparison) is given its IEEE semantics on the special values and
exact rational semantics on finite values; rounding and overflow are not
modelled (the source only forms midpoints and power-of-two steps, and no
claim below depends on rounding).

Every embedded function additionally returns the list of arguments at which
the objective function `f` was invoked, in source evaluation order, so that
claims about "f is never invoked" are statements about that trace.  A Go
`panic` is modelled by `GoRes.panicked`; a Go `*Settings` pointer by
`Option Settings`.  Goroutine pairs in the source are always joined before
either result is used and compute independent values, so the embedding uses
the equivalent sequential semantics.
-/

namespace GonumRoot

/-- Model of a float64: exact rational, or one of the IEEE special values. -/
inductive FP where
  | fin (q : ℚ)
  | pinf
  | ninf
  | nan
deriving DecidableEq, Repr

/-- `math.IsNaN`. -/
def FP.isNaN : FP → Bool
  | .nan => true
  | _ => false

/-- `math.IsInf(x, -1)`. -/
def FP.isNegInf : FP → Bool
  | .ninf => true
  | _ => false

/-- `math.IsInf(x, 1)`. -/
def FP.isPosInf : FP → Bool
  | .pinf => true
  | _ => false

/-- IEEE `<` on float64: any comparison with NaN is false. -/
def FP.lt : FP → FP → Bool
  | .nan, _ => false
  | _, .nan => false
  | .ninf, .ninf => false
  | .ninf, _ => true
  | _, .ninf => false
  | .pinf, _ => false
  | .fin _, .pinf => true
  | .fin a, .fin b => decide (a < b)

/-- IEEE `>=` on float64: false whenever either operand is NaN. -/
def FP.ge (a b : FP) : Bool :=
  if a.isNaN || b.isNaN then false else !(FP.lt a b)

/-- IEEE `==` on float64: false whenever either operand is NaN. -/
def FP.feq (a b : FP) : Bool :=
  if a.isNaN || b.isNaN then false else a == b

/-- `math.Abs`. -/
def FP.abs : FP → FP
  | .fin q => .fin |q|
  | .pinf => .pinf
  | .ninf => .pinf
  | .nan => .nan

/-- `math.Min`: NaN if either argument is NaN, else the smaller value. -/
def FP.gomin (a b : FP) : FP :=
  if a.isNaN || b.isNaN then .nan else if a.lt b then a else b

/-- IEEE addition (exact on finite values; Inf + (-Inf) = NaN). -/
def FP.add : FP → FP → FP
  | .nan, _ => .nan
  | _, .nan => .nan
  | .pinf, .ninf => .nan
  | .ninf, .pinf => .nan
  | .pinf, _ => .pinf
  | _, .pinf => .pinf
  | .ninf, _ => .ninf
  | _, .ninf => .ninf
  | .fin a, .fin b => .fin (a + b)

/-- IEEE multiplication (exact on finite values; 0 * Inf = NaN). -/
def FP.mul : FP → FP → FP
  | .nan, _ => .nan
  | _, .nan => .nan
  | .fin a, .fin b => .fin (a * b)
  | .pinf, .pinf => .pinf
  | .pinf, .ninf => .ninf
  | .ninf, .pinf => .ninf
  | .ninf, .ninf => .pinf
  | .pinf, .fin b => if 0 < b then .pinf else if b < 0 then .ninf else .nan
  | .fin a, .pinf => if 0 < a then .pinf else if a < 0 then .ninf else .nan
  | .ninf, .fin b => if 0 < b then .ninf else if b < 0 then .pinf else .nan
  | .fin a, .ninf => if 0 < a then .ninf else if a < 0 then .pinf else .nan

/-- Division by the constant 2, as used for the bisection midpoint. -/
def FP.half : FP → FP
  | .fin q => .fin (q / 2)
  | x => x

/-- Result of a Go function that may `panic`. -/
inductive GoRes (α : Type) where
  | ok (val : α)
  | panicked (msg : String)
deriving DecidableEq, Repr

/-- The package-level error values (`ErrMaxEval`, `ErrNaN`, `ErrNoRoot`) and
the two `errors.New` values created inside `getBoundVals`. -/
inductive RootErr where
  | maxEval
  | nanValue
  | noRoot
  | useMinValueInf
  | useMaxValueInf
deriving DecidableEq, Repr

/-- `noRootIter`: number of iterations before there must be a function error. -/
def noRootIter : Nat := 100

/-- The `bound` struct: a location paired with the function value there. -/
structure bound where
  loc : FP
  value : FP
deriving DecidableEq, Repr

/-- The Go zero value of `bound`, produced by bare `return` statements that
leave a named result unset. -/
def boundZero : bound := ⟨FP.fin 0, FP.fin 0⟩

/-- The `Settings` struct. -/
structure Settings where
  UseMinValue : Bool
  MinValue : FP
  UseMaxValue : Bool
  MaxValue : FP
  MaxEvals : Int
  Concurrent : Bool
  MaxWorkers : Int
deriving DecidableEq, Repr

/-- The Go zero value of `Settings`. -/
def zeroSettings : Settings :=
  ⟨false, FP.fin 0, false, FP.fin 0, 0, false, 0⟩

/-- `settings != nil && settings.UseMinValue`. -/
def settingsUseMinValue : Option Settings → Bool
  | none => false
  | some s => s.UseMinValue

/-- `settings != nil && settings.UseMaxValue`. -/
def settingsUseMaxValue : Option Settings → Bool
  | none => false
  | some s => s.UseMaxValue

/-- `settings.MinValue`, only read under a `UseMinValue` guard. -/
def settingsMinValue : Option Settings → FP
  | none => FP.fin 0
  | some s => s.MinValue

/-- `settings.MaxValue`. -/
def settingsMaxValue : Option Settings → FP
  | none => FP.fin 0
  | some s => s.MaxValue

/-- The `maxEvals` local computed from a possibly-nil settings pointer:
`if settings == nil { maxEvals = 0 } else { maxEvals = settings.MaxEvals }`
in `Find`, and the equivalent zero-initialised
`if settings != nil { maxEvals = settings.MaxEvals }` in `getBoundsInfinite`. -/
def settingsMaxEvals : Option Settings → Int
  | none => 0
  | some s => s.MaxEvals

/-- `sameSign`: `(a > 0 && b > 0) || (a < 0 && b < 0)`. -/
def sameSign (a b : FP) : Bool :=
  (FP.lt (FP.fin 0) a && FP.lt (FP.fin 0) b) ||
    (FP.lt a (FP.fin 0) && FP.lt b (FP.fin 0))

/-- `minBoundValue`: `math.Min(math.Abs(a.value), math.Abs(b.value))`.
(The source comment says it returns the location of a bound; the body
returns the smaller of the two absolute function values.) -/
def minBoundValue (a b : bound) : FP :=
  FP.gomin a.value.abs b.value.abs

/-- One loop iteration of `infSearch`, with the remaining fuel standing for
the remaining iterations of `for i := 0; i < noRootIter; i++`.  The probe
location is always `start.loc + step*dir` for the original start, with
`step` doubling; `newStart` is the running bound.  The fuel-exhausted case
and the `break` on the evaluation cap both fall through to the post-loop
`return` with `ErrMaxEval` and a NaN-location bound on the searched side. -/
def infSearchAux (f : FP → FP) (startLoc dir : FP) (maxFunEvals : Int) :
    Nat → FP → bound → Nat → ((bound × bound × Nat × Option RootErr) × List FP)
  | 0, _, newStart, n =>
    if FP.feq dir (FP.fin 1) then
      ((newStart, ⟨FP.nan, FP.fin 0⟩, n, some RootErr.maxEval), [])
    else
      ((⟨FP.nan, FP.fin 0⟩, newStart, n, some RootErr.maxEval), [])
  | fuel + 1, step, newStart, n =>
    if maxFunEvals > 0 && (n : Int) > maxFunEvals then
      if FP.feq dir (FP.fin 1) then
        ((newStart, ⟨FP.nan, FP.fin 0⟩, n, some RootErr.maxEval), [])
      else
        ((⟨FP.nan, FP.fin 0⟩, newStart, n, some RootErr.maxEval), [])
    else
      let newLoc := FP.add startLoc (FP.mul step dir)
      let newValue := f newLoc
      if newValue.isNaN then
        if FP.feq dir (FP.fin 1) then
          ((newStart, ⟨FP.nan, FP.fin 0⟩, n + 1, some RootErr.nanValue), [newLoc])
        else
          ((⟨FP.nan, FP.fin 0⟩, newStart, n + 1, some RootErr.nanValue), [newLoc])
      else if FP.feq newValue (FP.fin 0) || !sameSign newStart.value newValue then
        if FP.feq dir (FP.fin 1) then
          ((newStart, ⟨newLoc, newValue⟩, n + 1, none), [newLoc])
        else
          ((⟨newLoc, newValue⟩, newStart, n + 1, none), [newLoc])
      else
        let r := infSearchAux f startLoc dir maxFunEvals fuel
          (FP.mul step (FP.fin 2)) ⟨newLoc, newValue⟩ (n + 1)
        (r.1, newLoc :: r.2)

/-- `infSearch`: search in direction `dir` from `start`, stepping by 1 and
doubling, for at most `noRootIter` iterations. -/
def infSearch (f : FP → FP) (start : bound) (dir : FP)
    (nFunEvals : Nat) (maxFunEvals : Int) :
    (bound × bound × Nat × Option RootErr) × List FP :=
  infSearchAux f start.loc dir maxFunEvals noRootIter (FP.fin 1) start nFunEvals

/-- The bound-narrowing step of `bisection`: replace with the midpoint the
bound whose value has the same sign as the midpoint value. -/
def bisectUpdate (minBound maxBound : bound) (mid midValue : FP) :
    bound × bound :=
  if sameSign minBound.value midValue then
    (⟨mid, midValue⟩, maxBound)
  else
    (minBound, ⟨mid, midValue⟩)

/-- The loop of `bisection`, with fuel standing for the remaining iterations
of `for i := 0; i < noRootIter; i++`. -/
def bisectionAux (f : FP → FP) (tol : FP) (maxFunEvals : Int) :
    Nat → bound → bound → Nat → ((FP × Option RootErr) × List FP)
  | 0, minBound, maxBound, _ =>
    ((minBoundValue minBound maxBound, some RootErr.maxEval), [])
  | fuel + 1, minBound, maxBound, n =>
    let mid := FP.half (FP.add minBound.loc maxBound.loc)
    let midValue := f mid
    if midValue.isNaN then
      ((minBoundValue minBound maxBound, some RootErr.nanValue), [mid])
    else if FP.lt midValue.abs tol then
      ((mid, none), [mid])
    else if maxFunEvals > 0 && ((n + 1 : Nat) : Int) > maxFunEvals then
      ((minBoundValue minBound maxBound, some RootErr.maxEval), [mid])
    else
      let bs := bisectUpdate minBound maxBound mid midValue
      let r := bisectionAux f tol maxFunEvals fuel bs.1 bs.2 (n + 1)
      (r.1, mid :: r.2)

/-- `bisection`: narrow an assumed-valid bracket until the tolerance is met
or an error occurs. -/
def bisection (f : FP → FP) (minBound maxBound : bound) (tol : FP)
    (nFunEvals : Nat) (maxFunEvals : Int) : (FP × Option RootErr) × List FP :=
  bisectionAux f tol maxFunEvals noRootIter minBound maxBound nFunEvals

/-- `getBoundsFinite`: obtain the two function values when both bounds are
finite, using configured known values to skip evaluation.  (When concurrency
is enabled the source runs the two independent evaluations in goroutines and
joins them before returning; the values and count are the same.) -/
def getBoundsFinite (f : FP → FP) (min max : FP) (settings : Option Settings) :
    (FP × FP × Nat) × List FP :=
  let minPart : FP × Nat × List FP :=
    if settingsUseMinValue settings then (settingsMinValue settings, 0, [])
    else (f min, 1, [min])
  let maxPart : FP × Nat × List FP :=
    if settingsUseMaxValue settings then (settingsMaxValue settings, 0, [])
    else (f max, 1, [max])
  ((minPart.1, maxPart.1, minPart.2.1 + maxPart.2.1), minPart.2.2 ++ maxPart.2.2)

/-- The inline test `(zero > 0 && one < 0) || (zero < 0 && one > 0)` in
`getBoundsInfinite`. -/
def signsOpposite (zero one : FP) : Bool :=
  (FP.lt (FP.fin 0) zero && FP.lt one (FP.fin 0)) ||
    (FP.lt zero (FP.fin 0) && FP.lt (FP.fin 0) one)

/-- `getBoundsInfinite`: find finite bounds when one or both user-specified
bounds are infinite.  In the one-sided-infinite case the source does not
increment `nFunEvals` for the finite-side evaluation; in the both-infinite
case it adds 2 for the anchor probes at 0 and 1.  The trailing
`panic("unreachable")` is modelled faithfully. -/
def getBoundsInfinite (f : FP → FP) (min max : FP) (settings : Option Settings) :
    GoRes (bound × bound × Nat × Option RootErr) × List FP :=
  let minInf := FP.isNegInf min
  let maxInf := FP.isPosInf max
  let minPart : bound × List FP :=
    if !minInf then
      if settingsUseMinValue settings then (⟨min, settingsMinValue settings⟩, [])
      else (⟨min, f min⟩, [min])
    else (boundZero, [])
  let maxPart : bound × List FP :=
    if !maxInf then
      if settingsUseMaxValue settings then (⟨max, settingsMaxValue settings⟩, [])
      else (⟨max, f max⟩, [max])
    else (boundZero, [])
  let maxEvals := settingsMaxEvals settings
  if minInf && maxInf then
    let zero := f (FP.fin 0)
    let one := f (FP.fin 1)
    let anchorTrace : List FP := [FP.fin 0, FP.fin 1]
    if signsOpposite zero one then
      (GoRes.ok (⟨FP.fin 0, zero⟩, ⟨FP.fin 1, one⟩, 2, none),
        minPart.2 ++ maxPart.2 ++ anchorTrace)
    else
      let sel : bound × bound × Bool × Bool :=
        if FP.lt (FP.fin 0) zero && FP.lt (FP.fin 0) one then
          if FP.lt zero one then (minPart.1, ⟨FP.fin 0, zero⟩, minInf, false)
          else (⟨FP.fin 1, one⟩, maxPart.1, false, maxInf)
        else
          if FP.lt one zero then (minPart.1, ⟨FP.fin 0, zero⟩, minInf, false)
          else (⟨FP.fin 1, one⟩, maxPart.1, false, maxInf)
      if sel.2.2.2 then
        let r := infSearch f sel.1 (FP.fin 1) 2 maxEvals
        (GoRes.ok r.1, minPart.2 ++ maxPart.2 ++ anchorTrace ++ r.2)
      else if sel.2.2.1 then
        let r := infSearch f sel.2.1 (FP.fin (-1)) 2 maxEvals
        (GoRes.ok r.1, minPart.2 ++ maxPart.2 ++ anchorTrace ++ r.2)
      else
        (GoRes.panicked "unreachable", minPart.2 ++ maxPart.2 ++ anchorTrace)
  else
    if maxInf then
      let r := infSearch f minPart.1 (FP.fin 1) 0 maxEvals
      (GoRes.ok r.1, minPart.2 ++ maxPart.2 ++ r.2)
    else if minInf then
      let r := infSearch f maxPart.1 (FP.fin (-1)) 0 maxEvals
      (GoRes.ok r.1, minPart.2 ++ maxPart.2 ++ r.2)
    else
      (GoRes.panicked "unreachable", minPart.2 ++ maxPart.2)

/-- `getBoundVals`: validate the domain (panicking when `min >= max`),
handle the known-value early returns (which leave the named result bounds at
their zero values), and dispatch to the finite or infinite bound stage.
Both known-value tolerance tests read `settings.MaxValue`, as the source
does. -/
def getBoundVals (f : FP → FP) (min max tol : FP) (settings : Option Settings) :
    GoRes (bound × bound × Nat × Option RootErr) × List FP :=
  if FP.ge min max then
    (GoRes.panicked "minimum less than maximum", [])
  else
    let minInf := FP.isNegInf min
    let maxInf := FP.isPosInf max
    if settingsUseMinValue settings && minInf then
      (GoRes.ok (boundZero, boundZero, 0, some RootErr.useMinValueInf), [])
    else if settingsUseMinValue settings &&
        FP.lt (FP.abs (settingsMaxValue settings)) tol then
      (GoRes.ok (boundZero, boundZero, 0, none), [])
    else if settingsUseMaxValue settings && maxInf then
      (GoRes.ok (boundZero, boundZero, 0, some RootErr.useMaxValueInf), [])
    else if settingsUseMaxValue settings &&
        FP.lt (FP.abs (settingsMaxValue settings)) tol then
      (GoRes.ok (boundZero, boundZero, 0, none), [])
    else if minInf || maxInf then
      getBoundsInfinite f min max settings
    else
      let r := getBoundsFinite f min max settings
      (GoRes.ok (⟨min, r.1.1⟩, ⟨max, r.1.2.1⟩, r.1.2.2, none), r.2)

/-- `Find`: the entry operation.  Returns the location and error of the Go
function (or the propagated panic), paired with the trace of arguments at
which `f` was evaluated. -/
def Find (f : FP → FP) (min max tol : FP) (settings : Option Settings) :
    GoRes (FP × Option RootErr) × List FP :=
  match getBoundVals f min max tol settings with
  | (GoRes.panicked m, tr) => (GoRes.panicked m, tr)
  | (GoRes.ok (minBound, maxBound, nFunEvals, err), tr) =>
    match err with
    | some e => (GoRes.ok (minBoundValue minBound maxBound, some e), tr)
    | none =>
      if FP.lt minBound.value.abs tol then
        (GoRes.ok (minBound.loc, none), tr)
      else if FP.lt maxBound.value.abs tol then
        (GoRes.ok (maxBound.loc, none), tr)
      else
        let maxEvals := settingsMaxEvals settings
        let r := bisection f minBound maxBound tol nFunEvals maxEvals
        (GoRes.ok r.1, tr ++ r.2)

/-! ### Concrete objective functions and settings used in the theorems -/

/-- The linear function x - 7 (as in the package's own tests). -/
def linF : FP → FP := fun x => FP.add x (FP.fin (-7))

/-- Settings supplying the (truthful) known minimum value -4 = linF 3,
with all other fields at their zero values. -/
def knownMinSettings : Settings :=
  ⟨true, FP.fin (-4), false, FP.fin 0, 0, false, 0⟩

/-- Settings supplying a known minimum value 1/10, all else zero. -/
def smallKnownMinSettings : Settings :=
  ⟨true, FP.fin (1/10), false, FP.fin 0, 0, false, 0⟩

/-- A function equal to NaN at 0 and to 1 everywhere else. -/
def nanAtZeroF : FP → FP := fun x => if x == FP.fin 0 then FP.nan else FP.fin 1

/-- The constant function 10. -/
def const10F : FP → FP := fun _ => FP.fin 10

/-- The constant function 1. -/
def const1F : FP → FP := fun _ => FP.fin 1

/-- The linear function x + 1. -/
def linPlusOneF : FP → FP := fun x => FP.add x (FP.fin 1)

/-- A step function: 0 at 1, -1 below 1, 1 above 1. -/
def stepAtOneF : FP → FP := fun x =>
  if FP.feq x (FP.fin 1) then FP.fin 0
  else if FP.lt x (FP.fin 1) then FP.fin (-1)
  else FP.fin 1

/-- The identity function. -/
def idF : FP → FP := fun x => x

/-- Strictly opposite signs: one value strictly positive, the other strictly
negative (the bracket invariant of the specification). -/
def oppositeSign (a b : FP) : Bool :=
  (FP.lt (FP.fin 0) a && FP.lt b (FP.fin 0)) ||
    (FP.lt a (FP.fin 0) && FP.lt (FP.fin 0) b)

/-- The direction test applied by `getBoundsInfinite` to the two anchor
values when they are not of opposite sign: `true` exactly when the source
searches in the negative direction. -/
def searchesNegative (zero one : FP) : Bool :=
  if FP.lt (FP.fin 0) zero && FP.lt (FP.fin 0) one then FP.lt zero one
  else FP.lt one zero

/-! ### Sign lemmas -/

/-- A value cannot be both strictly positive and strictly negative. -/
theorem FP.lt_zero_asymm {x : FP} (h : FP.lt (FP.fin 0) x = true) :
    FP.lt x (FP.fin 0) = false := by
  cases x <;> simp_all [FP.lt]
  linarith

/-- A strictly negative value is not strictly positive. -/
theorem FP.zero_lt_asymm {x : FP} (h : FP.lt x (FP.fin 0) = true) :
    FP.lt (FP.fin 0) x = false := by
  cases x <;> simp_all [FP.lt]
  linarith

/-- A strictly positive or strictly negative value is not NaN. -/
theorem sameSign_not_nan {a b : FP} (h : sameSign a b = true) :
    b.isNaN = false := by
  cases b <;> simp_all [sameSign, FP.lt, FP.isNaN]

/-- A value of definite sign is not (IEEE-)equal to zero. -/
theorem sameSign_ne_zero {a b : FP} (h : sameSign a b = true) :
    FP.feq b (FP.fin 0) = false := by
  cases b <;> simp_all [sameSign, FP.lt, FP.feq, FP.isNaN]
  rintro rfl
  rcases h with ⟨-, h⟩ | ⟨-, h⟩ <;> simp at h

/-- `sameSign` is symmetric. -/
theorem sameSign_symm {a b : FP} (h : sameSign a b = true) :
    sameSign b a = true := by
  simp only [sameSign, Bool.or_eq_true, Bool.and_eq_true] at h ⊢
  tauto

/-- Two values sharing a sign with a common pivot share a sign with each
other. -/
theorem sameSign_trans {a b c : FP} (hab : sameSign a b = true)
    (hac : sameSign a c = true) : sameSign b c = true := by
  simp only [sameSign, Bool.or_eq_true, Bool.and_eq_true] at hab hac ⊢
  rcases hab with ⟨ha, hb⟩ | ⟨ha, hb⟩ <;> rcases hac with ⟨ha2, hc⟩ | ⟨ha2, hc⟩
  · exact Or.inl ⟨hb, hc⟩
  · exact absurd ha2 (by simp [FP.lt_zero_asymm ha])
  · exact absurd hc fun hc => by
      have := FP.lt_zero_asymm ha2
      simp_all
  · exact Or.inr ⟨hb, hc⟩

/-- `infSearchAux` evaluates f at most `fuel` times. -/
theorem infSearchAux_trace_le (f : FP → FP) (L dir : FP) (m : Int) :
    ∀ (fuel : Nat) (step : FP) (ns : bound) (n : Nat),
      (infSearchAux f L dir m fuel step ns n).2.length ≤ fuel := by
  intro fuel
  induction fuel with
  | zero =>
    intro step ns n
    simp only [infSearchAux]
    split <;> simp
  | succ k ih =>
    intro step ns n
    simp only [infSearchAux]
    split
    · split <;> simp
    · split
      · split <;> simp
      · split
        · split <;> simp
        · simpa using Nat.succ_le_succ (ih _ _ _)

/-- When every probe value shares the running bound's sign, the cap-free
search consumes all its fuel: it performs exactly one evaluation per fuel
unit, ends with `ErrMaxEval`, and the running bound it reports is the last
probed point `L + (s * 2 ^ (fuel - 1)) * dir`. -/
theorem infSearchAux_exhaust (f : FP → FP) (L dir : FP) :
    ∀ (fuel : Nat) (s : ℚ) (ns : bound) (n : Nat),
      1 ≤ fuel →
      (∀ x, sameSign ns.value (f x) = true) →
      (infSearchAux f L dir 0 fuel (FP.fin s) ns n).1 =
        (if FP.feq dir (FP.fin 1) then
          (⟨FP.add L (FP.mul (FP.fin (s * 2 ^ (fuel - 1))) dir),
             f (FP.add L (FP.mul (FP.fin (s * 2 ^ (fuel - 1))) dir))⟩,
           ⟨FP.nan, FP.fin 0⟩, n + fuel, some RootErr.maxEval)
        else
          (⟨FP.nan, FP.fin 0⟩,
           ⟨FP.add L (FP.mul (FP.fin (s * 2 ^ (fuel - 1))) dir),
             f (FP.add L (FP.mul (FP.fin (s * 2 ^ (fuel - 1))) dir))⟩,
           n + fuel, some RootErr.maxEval)) ∧
      (infSearchAux f L dir 0 fuel (FP.fin s) ns n).2.length = fuel := by
  intro fuel
  induction fuel with
  | zero => intro s ns n h; omega
  | succ k ih =>
    intro s ns n _ H
    have hguard : (decide ((0 : Int) > 0) && decide ((n : Int) > (0 : Int))) = false := by
      simp
    have hnewv := H (FP.add L (FP.mul (FP.fin s) dir))
    have hnan := sameSign_not_nan hnewv
    have hne := sameSign_ne_zero hnewv
    rcases Nat.eq_zero_or_pos k with hk | hk
    · subst hk
      simp only [infSearchAux, hguard, Bool.false_eq_true, if_false, hnan,
        hne, hnewv, Bool.not_true, Bool.or_self, Bool.or_false]
      split <;> simp
    · have H2 : ∀ x, sameSign (f (FP.add L (FP.mul (FP.fin s) dir))) (f x) = true :=
        fun x => sameSign_trans hnewv (H x)
      have ihr := ih (s * 2) ⟨FP.add L (FP.mul (FP.fin s) dir),
        f (FP.add L (FP.mul (FP.fin s) dir))⟩ (n + 1) hk H2
      have hstep : FP.mul (FP.fin s) (FP.fin 2) = FP.fin (s * 2) := rfl
      have hpow : s * 2 * 2 ^ (k - 1) = s * 2 ^ (k + 1 - 1) := by
        rw [Nat.add_sub_cancel]
        conv_rhs => rw [← Nat.sub_add_cancel hk]
        rw [pow_succ]
        ring
      rw [hpow] at ihr
      simp only [infSearchAux, hguard, Bool.false_eq_true, if_false, hnan,
        hne, hnewv, Bool.not_true, Bool.or_self, Bool.or_false, hstep]
      refine ⟨?_, ?_⟩
      · rw [ihr.1]
        have hnk : n + 1 + k = n + (k + 1) := by omega
        rw [hnk]
      · simp only [List.length_cons, ihr.2]

/-- If the bisection loop returns a nil error, the returned location is a
midpoint whose (freshly evaluated) function value met the tolerance. -/
theorem bisectionAux_success (f : FP → FP) (tol : FP) (m : Int) :
    ∀ (fuel : Nat) (minB maxB : bound) (n : Nat) (x : FP) (tr : List FP),
      bisectionAux f tol m fuel minB maxB n = ((x, none), tr) →
      FP.lt (FP.abs (f x)) tol = true := by
  intro fuel
  induction fuel with
  | zero =>
    intro minB maxB n x tr h
    simp only [bisectionAux] at h
    simp at h
  | succ k ih =>
    intro minB maxB n x tr h
    simp only [bisectionAux] at h
    split at h
    · simp at h
    · split at h
      · next hlt =>
        rw [Prod.mk.injEq, Prod.mk.injEq] at h
        rw [← h.1.1]
        exact hlt
      · split at h
        · simp at h
        · rw [Prod.mk.injEq] at h
          exact ih _ _ _ x _ (by rw [← h.1])

/-- `infSearchAux` only ever returns authentic bounds on success: if the
running bound's value is f of its location, then on a nil error both
returned bounds carry f of their own locations. -/
theorem infSearchAux_auth (f : FP → FP) (L dir : FP) (m : Int) :
    ∀ (fuel : Nat) (step : FP) (ns : bound) (n : Nat) (mb xb : bound)
      (k : Nat) (tr : List FP),
      ns.value = f ns.loc →
      infSearchAux f L dir m fuel step ns n = ((mb, xb, k, none), tr) →
      mb.value = f mb.loc ∧ xb.value = f xb.loc := by
  intro fuel
  induction fuel with
  | zero =>
    intro step ns n mb xb k tr hns h
    simp only [infSearchAux] at h
    split at h <;> simp at h
  | succ j ih =>
    intro step ns n mb xb k tr hns h
    simp only [infSearchAux] at h
    split at h
    · split at h <;> simp at h
    · split at h
      · split at h <;> simp at h
      · split at h
        · split at h
          · simp only [Prod.mk.injEq] at h
            obtain ⟨⟨h1, h2, -⟩, -⟩ := h
            subst h1
            subst h2
            exact ⟨hns, rfl⟩
          · simp only [Prod.mk.injEq] at h
            obtain ⟨⟨h1, h2, -⟩, -⟩ := h
            subst h1
            subst h2
            exact ⟨rfl, hns⟩
        · rw [Prod.mk.injEq] at h
          exact ih _ _ _ mb xb k _ rfl (by rw [← h.1])

/-- When no known bound values are configured, a nil-error return of
`getBoundsInfinite` carries two authentic bounds: each value field is f of
the corresponding location. -/
theorem getBoundsInfinite_auth (f : FP → FP) (min max : FP)
    (s : Option Settings)
    (hmin : settingsUseMinValue s = false)
    (hmax : settingsUseMaxValue s = false)
    (mb xb : bound) (k : Nat) (tr : List FP)
    (h : getBoundsInfinite f min max s = (GoRes.ok (mb, xb, k, none), tr)) :
    mb.value = f mb.loc ∧ xb.value = f xb.loc := by
  simp only [getBoundsInfinite, hmin, hmax, Bool.false_eq_true, if_false,
    infSearch] at h
  by_cases hmi : FP.isNegInf min = true <;> by_cases hma : FP.isPosInf max = true <;>
    simp only [hmi, hma, Bool.and_self, Bool.and_true, Bool.and_false,
      Bool.not_true, Bool.not_false, Bool.false_eq_true, Bool.true_eq_false,
      if_true, if_false, if_true] at h
  · split at h
    · simp only [Prod.mk.injEq, GoRes.ok.injEq] at h
      obtain ⟨⟨h1, h2, -⟩, -⟩ := h
      subst h1
      subst h2
      exact ⟨rfl, rfl⟩
    · by_cases c1 : (FP.lt (FP.fin 0) (f (FP.fin 0)) &&
          FP.lt (FP.fin 0) (f (FP.fin 1))) = true <;>
        by_cases c2 : FP.lt (f (FP.fin 0)) (f (FP.fin 1)) = true <;>
        by_cases c3 : FP.lt (f (FP.fin 1)) (f (FP.fin 0)) = true <;>
        simp only [c1, c2, c3, Bool.false_eq_true, if_true, if_false] at h <;>
        · simp only [Prod.mk.injEq, GoRes.ok.injEq] at h
          exact infSearchAux_auth f _ _ _ noRootIter (FP.fin 1) _ 2
            mb xb k _ rfl (by rw [← h.1])
  · simp only [Prod.mk.injEq, GoRes.ok.injEq] at h
    exact infSearchAux_auth f _ _ _ noRootIter (FP.fin 1) _ 0
      mb xb k _ rfl (by rw [← h.1])
  · simp only [Prod.mk.injEq, GoRes.ok.injEq] at h
    exact infSearchAux_auth f _ _ _ noRootIter (FP.fin 1) _ 0
      mb xb k _ rfl (by rw [← h.1])
  · simp at h

/-- When no known bound values are configured, a nil-error return of
`getBoundVals` carries two authentic bounds. -/
theorem getBoundVals_auth (f : FP → FP) (min max tol : FP)
    (s : Option Settings)
    (hmin : settingsUseMinValue s = false)
    (hmax : settingsUseMaxValue s = false)
    (mb xb : bound) (k : Nat) (tr : List FP)
    (h : getBoundVals f min max tol s = (GoRes.ok (mb, xb, k, none), tr)) :
    mb.value = f mb.loc ∧ xb.value = f xb.loc := by
  simp only [getBoundVals, hmin, hmax, Bool.false_and, Bool.false_eq_true,
    if_false] at h
  split at h
  · simp at h
  · split at h
    · exact getBoundsInfinite_auth f min max s hmin hmax mb xb k tr h
    · simp only [getBoundsFinite, hmin, hmax, Bool.false_eq_true, if_false,
        Prod.mk.injEq, GoRes.ok.injEq] at h
      obtain ⟨⟨h1, h2, -⟩, -⟩ := h
      subst h1
      subst h2
      exact ⟨rfl, rfl⟩

/-! ### Theorems about the claims -/

/-- C1, counterexample.  For f = x - 7 on [3, 5] with tol = 1/2 and settings
that truthfully supply the known minimum value -4 (MaxValue left at its zero
value), `Find` succeeds with a nil error and returns x = 0, yet
|f(0)| = 7 is not below the tolerance.  (The known-value early return in
`getBoundVals` tests `settings.MaxValue` and hands back zero-valued bounds.)
So a nil-error `Find` result does not always satisfy |f(x)| < tol. -/
theorem C1_counterexample :
    Find linF (FP.fin 3) (FP.fin 5) (FP.fin (1/2)) (some knownMinSettings) =
      (GoRes.ok (FP.fin 0, none), []) ∧
    FP.lt (FP.abs (linF (FP.fin 0))) (FP.fin (1/2)) = false := by
  constructor <;> with_unfolding_all rfl

/-- C1, amended.  For every f, bounds, tolerance and settings that supply
no known bound values (in particular for nil settings), whenever `Find`
returns a nil error, the returned location x satisfies |f(x)| < tol: every
nil-error exit either returns a bound whose stored value is a genuine
evaluation of f at its location, or a bisection midpoint whose fresh
evaluation met the tolerance. -/
theorem C1_amended_tolerance (f : FP → FP) (min max tol : FP)
    (settings : Option Settings)
    (hmin : settingsUseMinValue settings = false)
    (hmax : settingsUseMaxValue settings = false)
    (x : FP) (tr : List FP)
    (h : Find f min max tol settings = (GoRes.ok (x, none), tr)) :
    FP.lt (FP.abs (f x)) tol = true := by
  unfold Find at h
  split at h
  · simp at h
  · split at h
    · simp at h
    · rename_i scr mb xb k gtr opt heq
      have hauth := getBoundVals_auth f min max tol settings hmin hmax
        mb xb k gtr heq
      split at h
      · next hlt =>
        simp only [Prod.mk.injEq, GoRes.ok.injEq] at h
        obtain ⟨⟨hx, -⟩, -⟩ := h
        subst hx
        rw [← hauth.1]
        exact hlt
      · split at h
        · next hlt =>
          simp only [Prod.mk.injEq, GoRes.ok.injEq] at h
          obtain ⟨⟨hx, -⟩, -⟩ := h
          subst hx
          rw [← hauth.2]
          exact hlt
        · simp only [Prod.mk.injEq, GoRes.ok.injEq, bisection] at h
          exact bisectionAux_success f tol (settingsMaxEvals settings)
            noRootIter mb xb k x _ (by rw [← h.1])

/-- Witness for `C1_amended_tolerance`: the identity function on [-1, 1]
with tolerance 1 and nil settings; `Find` returns 0 with a nil error after
probing -1, 1 and the midpoint 0, and |f(0)| = 0 < 1. -/
theorem C1_amended_tolerance_witness :
    FP.lt (FP.abs (idF (FP.fin 0))) (FP.fin 1) = true :=
  C1_amended_tolerance idF (FP.fin (-1)) (FP.fin 1) (FP.fin 1) none rfl rfl
    (FP.fin 0) [FP.fin (-1), FP.fin 1, FP.fin 0] (by with_unfolding_all rfl)

/-- C2, counterexample.  For min = 1 ≥ max = 0, `Find` does not return a
recoverable invalid-domain failure: it panics (an unrecoverable process
abort), before invoking f. -/
theorem C2_counterexample :
    Find (fun _ => FP.fin 0) (FP.fin 1) (FP.fin 0) (FP.fin 1) none =
      (GoRes.panicked "minimum less than maximum", []) := by
  with_unfolding_all rfl

/-- C2, amended.  For every f, tolerance, and settings, whenever min ≥ max
(in the IEEE sense), `Find` terminates in the panic "minimum less than
maximum" — an unrecoverable process abort, not a recoverable error result —
and its evaluation trace is empty, so f is never invoked. -/
theorem C2_amended_panic (f : FP → FP) (min max tol : FP)
    (settings : Option Settings) (h : FP.ge min max = true) :
    Find f min max tol settings =
      (GoRes.panicked "minimum less than maximum", []) := by
  unfold Find getBoundVals
  rw [h]
  rfl

/-- Witness for `C2_amended_panic` at f = const 0, min = 1, max = 0. -/
theorem C2_amended_panic_witness :
    Find (fun _ => FP.fin 0) (FP.fin 1) (FP.fin 0) (FP.fin 1) (some zeroSettings) =
      (GoRes.panicked "minimum less than maximum", []) :=
  C2_amended_panic (fun _ => FP.fin 0) (FP.fin 1) (FP.fin 0) (FP.fin 1)
    (some zeroSettings) rfl

set_option maxRecDepth 4000 in
/-- C3, code bug, evaluated.  `minBoundValue`'s own comment says it returns
the location of a bound, and the spec says the best estimate accompanying a
failure is the location of the smaller-|value| bound; the body instead
returns `math.Min` of the two absolute function values.  On the bounds
(loc 3, value -10) and (loc 5, value 2) it yields 2 — the magnitude of the
second bound's value — which is the location of neither bound (3 or 5).
Consequently `bisection` on the constant function 10 over [0, 4] reports the
best estimate 10, a point outside the bracket entirely. -/
theorem C3_bug_eval :
    minBoundValue ⟨FP.fin 3, FP.fin (-10)⟩ ⟨FP.fin 5, FP.fin 2⟩ = FP.fin 2 ∧
    (FP.fin 2 ≠ FP.fin 3 ∧ FP.fin 2 ≠ FP.fin 5) ∧
    (bisection const10F ⟨FP.fin 0, FP.fin 10⟩ ⟨FP.fin 4, FP.fin 10⟩
        (FP.fin 1) 2 0).1 = (FP.fin 10, some RootErr.maxEval) := by
  refine ⟨rfl, ⟨by decide, by decide⟩, ?_⟩
  with_unfolding_all rfl

/-- C4, code bug, evaluated.  With settings supplying a known minimum value
1/10 whose magnitude is below tol = 1/2 (and MaxValue at its zero value),
`Find` on [3, 5] performs no evaluations of f (empty trace) but returns
location 0 with success — not the minimum bound's location 3 as the claim
and `getBoundVals`'s own documented postconditions require: the tolerance
test reads `settings.MaxValue` instead of `settings.MinValue`, and the early
return leaves both bounds at their zero values. -/
theorem C4_bug_eval :
    Find const10F (FP.fin 3) (FP.fin 5) (FP.fin (1/2))
        (some smallKnownMinSettings) = (GoRes.ok (FP.fin 0, none), []) ∧
    (FP.fin 0 : FP) ≠ FP.fin 3 := by
  exact ⟨by with_unfolding_all rfl, by decide⟩

set_option maxRecDepth 4000 in
/-- C5, code bug, evaluated.  With f equal to NaN at 0 and 1 elsewhere, on
[0, 2] with tol = 1/2 and nil settings, the very first probe f(0) is NaN,
yet `Find` does not stop: it evaluates f at max and at 100 bisection
midpoints (102 probes in total) and finally reports `ErrMaxEval`, not
`ErrNaN` — contradicting the claim and `Find`'s own doc comment ("Find will
return ErrNan if the function evaluates to NaN").  The initial bound
evaluations are never checked for NaN. -/
theorem C5_bug_eval :
    nanAtZeroF (FP.fin 0) = FP.nan ∧
    (Find nanAtZeroF (FP.fin 0) (FP.fin 2) (FP.fin (1/2)) none).1 =
      GoRes.ok (FP.nan, some RootErr.maxEval) ∧
    (Find nanAtZeroF (FP.fin 0) (FP.fin 2) (FP.fin (1/2)) none).2.length = 102 := by
  refine ⟨rfl, ?_, ?_⟩ <;> with_unfolding_all rfl

/-- C6.  The doubling-step search is always bounded: whatever the
evaluation-cap setting `m`, `infSearch` evaluates f at most `noRootIter`
(= 100) times.  Moreover, with no explicit cap configured (`m = 0`), if
every probed value keeps the sign of the running bound (no zero, no sign
change, no NaN), the search exhausts all 100 iterations and returns the
running bound — the last probed point, at distance `2 ^ 99` from the start —
as best estimate, with the evaluation-limit error `ErrMaxEval`, and a
NaN-location bound on the searched side. -/
theorem C6_infSearch_cap (f : FP → FP) (start : bound) (dir : FP)
    (n : Nat) (m : Int) :
    (infSearch f start dir n m).2.length ≤ noRootIter ∧
    (m = 0 → (∀ x, sameSign start.value (f x) = true) →
      (infSearch f start dir n m).1 =
        (if FP.feq dir (FP.fin 1) then
          (⟨FP.add start.loc (FP.mul (FP.fin (2 ^ 99)) dir),
             f (FP.add start.loc (FP.mul (FP.fin (2 ^ 99)) dir))⟩,
           ⟨FP.nan, FP.fin 0⟩, n + noRootIter, some RootErr.maxEval)
        else
          (⟨FP.nan, FP.fin 0⟩,
           ⟨FP.add start.loc (FP.mul (FP.fin (2 ^ 99)) dir),
             f (FP.add start.loc (FP.mul (FP.fin (2 ^ 99)) dir))⟩,
           n + noRootIter, some RootErr.maxEval))) := by
  constructor
  · exact infSearchAux_trace_le f start.loc dir m noRootIter (FP.fin 1) start n
  · rintro rfl H
    have h := (infSearchAux_exhaust f start.loc dir noRootIter 1 start n
      (by decide) H).1
    unfold infSearch
    rw [h]
    norm_num [noRootIter]

/-- Witness for `C6_infSearch_cap`: the constant function 1 searched in the
positive direction from (0, 1) with no cap set. -/
theorem C6_infSearch_cap_witness :
    (infSearch const1F ⟨FP.fin 0, FP.fin 1⟩ (FP.fin 1) 0 0).2.length ≤ noRootIter ∧
    (infSearch const1F ⟨FP.fin 0, FP.fin 1⟩ (FP.fin 1) 0 0).1 =
      (⟨FP.add (FP.fin 0) (FP.mul (FP.fin (2 ^ 99)) (FP.fin 1)), FP.fin 1⟩,
       ⟨FP.nan, FP.fin 0⟩, noRootIter, some RootErr.maxEval) := by
  have h := C6_infSearch_cap const1F ⟨FP.fin 0, FP.fin 1⟩ (FP.fin 1) 0 0
  refine ⟨h.1, ?_⟩
  have h2 := h.2 rfl (fun x => by with_unfolding_all rfl)
  rw [h2]
  with_unfolding_all rfl

/-- C7, counterexample.  For f = x + 1 on (-∞, +∞) the anchors are
f(0) = 1 and f(1) = 2: not of opposite sign, both positive, increasing, so
the source searches in the negative direction — and the bound it retains on
the max side is the "0" anchor (location 0, value 1), not the "1" anchor as
the claim states.  The full result: min side (-1, 0) found by the search,
max side (0, 1). -/
theorem C7_counterexample :
    getBoundsInfinite linPlusOneF FP.ninf FP.pinf none =
      (GoRes.ok (⟨FP.fin (-1), FP.fin 0⟩, ⟨FP.fin 0, FP.fin 1⟩, 3, none),
        [FP.fin 0, FP.fin 1, FP.fin (-1)]) ∧
    (FP.fin 0 : FP) ≠ FP.fin 1 := by
  exact ⟨by with_unfolding_all rfl, by decide⟩

/-- C7, amended.  In the both-sides-infinite case, when the anchor values
f(0) and f(1) are not of opposite sign, the search direction is inferred
from their magnitudes and signs (`searchesNegative`), and: searching in the
negative direction starts from — and thereby fixes the max side at — the
"0" anchor (location 0 with value f(0)), while searching in the positive
direction fixes the min side at the "1" anchor (location 1 with value
f(1)). -/
theorem C7_amended_direction (f : FP → FP) (settings : Option Settings)
    (h : signsOpposite (f (FP.fin 0)) (f (FP.fin 1)) = false) :
    getBoundsInfinite f FP.ninf FP.pinf settings =
      (if searchesNegative (f (FP.fin 0)) (f (FP.fin 1)) then
        (GoRes.ok (infSearch f ⟨FP.fin 0, f (FP.fin 0)⟩ (FP.fin (-1)) 2
            (settingsMaxEvals settings)).1,
          FP.fin 0 :: FP.fin 1 :: (infSearch f ⟨FP.fin 0, f (FP.fin 0)⟩
            (FP.fin (-1)) 2 (settingsMaxEvals settings)).2)
       else
        (GoRes.ok (infSearch f ⟨FP.fin 1, f (FP.fin 1)⟩ (FP.fin 1) 2
            (settingsMaxEvals settings)).1,
          FP.fin 0 :: FP.fin 1 :: (infSearch f ⟨FP.fin 1, f (FP.fin 1)⟩
            (FP.fin 1) 2 (settingsMaxEvals settings)).2)) := by
  have e1 : FP.isNegInf FP.ninf = true := rfl
  have e2 : FP.isPosInf FP.pinf = true := rfl
  simp only [getBoundsInfinite, e1, e2, Bool.not_true, Bool.false_eq_true,
    if_false, Bool.and_self, if_true, h]
  by_cases h1 : (FP.lt (FP.fin 0) (f (FP.fin 0)) &&
      FP.lt (FP.fin 0) (f (FP.fin 1))) = true
  · by_cases h2 : FP.lt (f (FP.fin 0)) (f (FP.fin 1)) = true
    · simp [searchesNegative, h1, h2]
    · simp [searchesNegative, h1, h2]
  · by_cases h2 : FP.lt (f (FP.fin 1)) (f (FP.fin 0)) = true
    · simp [searchesNegative, h1, h2]
    · simp [searchesNegative, h1, h2]

/-- Witness for `C7_amended_direction` at f = x + 1 with nil settings. -/
theorem C7_amended_direction_witness :
    getBoundsInfinite linPlusOneF FP.ninf FP.pinf none =
      (if searchesNegative (linPlusOneF (FP.fin 0)) (linPlusOneF (FP.fin 1)) then
        (GoRes.ok (infSearch linPlusOneF ⟨FP.fin 0, linPlusOneF (FP.fin 0)⟩
            (FP.fin (-1)) 2 (settingsMaxEvals none)).1,
          FP.fin 0 :: FP.fin 1 :: (infSearch linPlusOneF
            ⟨FP.fin 0, linPlusOneF (FP.fin 0)⟩ (FP.fin (-1)) 2
            (settingsMaxEvals none)).2)
       else
        (GoRes.ok (infSearch linPlusOneF ⟨FP.fin 1, linPlusOneF (FP.fin 1)⟩
            (FP.fin 1) 2 (settingsMaxEvals none)).1,
          FP.fin 0 :: FP.fin 1 :: (infSearch linPlusOneF
            ⟨FP.fin 1, linPlusOneF (FP.fin 1)⟩ (FP.fin 1) 2
            (settingsMaxEvals none)).2)) :=
  C7_amended_direction linPlusOneF none (by with_unfolding_all rfl)

/-- C9, code bug, evaluated.  On the constant function 1 over the finite
domain [0, 2] with tol = 1/2 and nil settings, `getBoundVals` returns with a
nil error, yet the two returned function values are both 1: they are not of
strictly opposite sign and neither has magnitude below the tolerance.  The
both-finite path performs no sign check, contradicting the claim and
`getBoundVals`'s own doc comment ("the two values will be of opposite
sign"). -/
theorem C9_bug_eval :
    getBoundVals const1F (FP.fin 0) (FP.fin 2) (FP.fin (1/2)) none =
      (GoRes.ok (⟨FP.fin 0, FP.fin 1⟩, ⟨FP.fin 2, FP.fin 1⟩, 2, none),
        [FP.fin 0, FP.fin 2]) ∧
    sameSign (FP.fin 1) (FP.fin 1) = true ∧
    FP.lt (FP.abs (FP.fin 1)) (FP.fin (1/2)) = false := by
  refine ⟨?_, ?_, ?_⟩ <;> with_unfolding_all rfl

/-- C8, counterexample.  With tolerance 0, the input bracket
((0, -1), (2, 1)) is valid (strictly opposite values), the first bisection
midpoint is 1, and the step function `stepAtOneF` has value exactly 0 there;
0 does not meet the tolerance (|0| < 0 is false), so the narrowing step
runs — and since 0 shares neither bound's sign, the max bound is replaced,
leaving the pair (-1, 0), which is NOT of strictly opposite sign.  The full
`bisection` run returns `ErrMaxEval` with best estimate 0, confirming the
degenerate pair persisted. -/
theorem C8_counterexample :
    oppositeSign (FP.fin (-1)) (FP.fin 1) = true ∧
    FP.half (FP.add (FP.fin 0) (FP.fin 2)) = FP.fin 1 ∧
    stepAtOneF (FP.fin 1) = FP.fin 0 ∧
    FP.lt (FP.abs (stepAtOneF (FP.fin 1))) (FP.fin 0) = false ∧
    bisectUpdate ⟨FP.fin 0, FP.fin (-1)⟩ ⟨FP.fin 2, FP.fin 1⟩ (FP.fin 1)
        (stepAtOneF (FP.fin 1)) =
      (⟨FP.fin 0, FP.fin (-1)⟩, ⟨FP.fin 1, FP.fin 0⟩) ∧
    oppositeSign (FP.fin (-1)) (FP.fin 0) = false ∧
    (bisection stepAtOneF ⟨FP.fin 0, FP.fin (-1)⟩ ⟨FP.fin 2, FP.fin 1⟩
        (FP.fin 0) 0 0).1 = (FP.fin 0, some RootErr.maxEval) := by
  refine ⟨?_, ?_, ?_, ?_, ?_, ?_, ?_⟩ <;> with_unfolding_all rfl

/-- C8, amended.  Whenever the midpoint value is not NaN, fails the
tolerance test, and the tolerance is strictly positive (which forces the
midpoint value to be nonzero), the narrowing step of bisection replaces
exactly the bound whose value shares the midpoint value's sign, and the
resulting pair of bound values is again of strictly opposite sign. -/
theorem C8_amended_invariant (minB maxB : bound) (mid midValue tol : FP)
    (h : oppositeSign minB.value maxB.value = true)
    (hn : midValue.isNaN = false)
    (hm : FP.lt midValue.abs tol = false)
    (ht : FP.lt (FP.fin 0) tol = true) :
    oppositeSign (bisectUpdate minB maxB mid midValue).1.value
      (bisectUpdate minB maxB mid midValue).2.value = true ∧
    (sameSign minB.value midValue = true →
      bisectUpdate minB maxB mid midValue = (⟨mid, midValue⟩, maxB)) ∧
    (sameSign minB.value midValue = false →
      sameSign maxB.value midValue = true ∧
      bisectUpdate minB maxB mid midValue = (minB, ⟨mid, midValue⟩)) := by
  have hzero : midValue ≠ FP.fin 0 := by
    rintro rfl
    have habs : FP.abs (FP.fin 0) = FP.fin 0 := by simp [FP.abs]
    rw [habs, ht] at hm
    simp at hm
  have hsign : FP.lt (FP.fin 0) midValue = true ∨
      FP.lt midValue (FP.fin 0) = true := by
    cases midValue with
    | fin q =>
      rcases lt_trichotomy (0 : ℚ) q with hq | hq | hq
      · exact Or.inl (by simp [FP.lt, hq])
      · exact absurd (congrArg FP.fin hq.symm) hzero
      · exact Or.inr (by simp [FP.lt, hq])
    | pinf => exact Or.inl rfl
    | ninf => exact Or.inr rfl
    | nan => simp [FP.isNaN] at hn
  simp only [oppositeSign, Bool.or_eq_true, Bool.and_eq_true] at h
  rcases h with ⟨hminpos, hmaxneg⟩ | ⟨hminneg, hmaxpos⟩ <;>
    rcases hsign with hmid | hmid
  · have hs : sameSign minB.value midValue = true := by
      simp [sameSign, hminpos, hmid]
    refine ⟨?_, fun _ => by simp [bisectUpdate, hs],
      fun hc => absurd hs (by simp [hc])⟩
    simp [bisectUpdate, hs, oppositeSign, hmid, hmaxneg]
  · have hs : sameSign minB.value midValue = false := by
      simp [sameSign, FP.zero_lt_asymm hmid, FP.lt_zero_asymm hminpos]
    refine ⟨?_, fun hc => absurd hc (by simp [hs]),
      fun _ => ⟨?_, by simp [bisectUpdate, hs]⟩⟩
    · simp [bisectUpdate, hs, oppositeSign, hminpos, hmid]
    · simp [sameSign, hmaxneg, hmid]
  · have hs : sameSign minB.value midValue = false := by
      simp [sameSign, FP.zero_lt_asymm hminneg, FP.lt_zero_asymm hmid]
    refine ⟨?_, fun hc => absurd hc (by simp [hs]),
      fun _ => ⟨?_, by simp [bisectUpdate, hs]⟩⟩
    · simp [bisectUpdate, hs, oppositeSign, hminneg, hmid]
    · simp [sameSign, hmaxpos, hmid]
  · have hs : sameSign minB.value midValue = true := by
      simp [sameSign, hminneg, hmid]
    refine ⟨?_, fun _ => by simp [bisectUpdate, hs],
      fun hc => absurd hs (by simp [hc])⟩
    simp [bisectUpdate, hs, oppositeSign, hmid, hmaxpos]

/-- Witness for `C8_amended_invariant`: bracket ((0, -1), (2, 1)), midpoint
1 with value 1/2, tolerance 1/4. -/
theorem C8_amended_invariant_witness :
    oppositeSign (bisectUpdate ⟨FP.fin 0, FP.fin (-1)⟩ ⟨FP.fin 2, FP.fin 1⟩
        (FP.fin 1) (FP.fin (1/2))).1.value
      (bisectUpdate ⟨FP.fin 0, FP.fin (-1)⟩ ⟨FP.fin 2, FP.fin 1⟩
        (FP.fin 1) (FP.fin (1/2))).2.value = true :=
  (C8_amended_invariant ⟨FP.fin 0, FP.fin (-1)⟩ ⟨FP.fin 2, FP.fin 1⟩
    (FP.fin 1) (FP.fin (1/2)) (FP.fin (1/4))
    (by with_unfolding_all rfl) (by with_unfolding_all rfl)
    (by with_unfolding_all rfl) (by with_unfolding_all rfl)).1

/-- C10.  `Find` with a nil settings pointer computes exactly the same
result — location, error, and even the trace of evaluations of f — as
`Find` with a pointer to a zero-valued `Settings` struct: every access to
settings is nil-guarded and the guarded defaults coincide with the zero
values (no known bound values, no evaluation cap, sequential evaluation). -/
theorem C10_nil_settings_default (f : FP → FP) (min max tol : FP) :
    Find f min max tol none = Find f min max tol (some zeroSettings) := by
  rfl

end GonumRoot
